import Mathlib

/-!
Shallow embedding of the cf-token-generator CLI (src/unnamed/part_000,
a TypeScript program).  The program resolves human-readable Cloudflare
permission descriptors into permission-group ids and assembles a
token-creation request, optionally restricted to GitHub IP ranges.

Strings are modelled by Lean `String`; JavaScript string operations
(`split`, `includes`, `startsWith`, `trim`) are re-implemented over
`String.data` so that their behaviour on every input is fixed by the
definitions below and provable by list induction.  Network effects are
made explicit: every function that would perform an HTTP request also
returns the list of `NetCall`s it issues, in the order the source
initiates them.
-/

namespace CfToken

/-- JS `str.includes(c)` for a single character: does `c` occur in `l`? -/
def hasChar (c : Char) : List Char → Bool
  | [] => false
  | x :: xs => x == c || hasChar c xs

/-- JS `str.split(sep)` for a single-character separator: split on every
occurrence of `sep`, keeping empty segments ( `"".split` gives `[""]`,
`":".split(":")` gives `["", ""]` ). -/
def splitChars (sep : Char) : List Char → List (List Char)
  | [] => [[]]
  | c :: cs =>
    if c = sep then [] :: splitChars sep cs
    else
      match splitChars sep cs with
      | [] => [[c]]
      | s :: rest => (c :: s) :: rest

/-- JS `small.isSubstringOf big` test used by `String.prototype.startsWith`:
does `l` start with `pre`? -/
def startsWithL (l pre : List Char) : Bool :=
  match l, pre with
  | _, [] => true
  | [], _ :: _ => false
  | x :: xs, y :: ys => x == y && startsWithL xs ys

/-- JS `big.includes(sub)`: does `sub` occur contiguously inside `l`? -/
def isInfixL (sub l : List Char) : Bool :=
  match l with
  | [] => sub.isEmpty
  | _ :: rest => startsWithL l sub || isInfixL sub rest

/-- JS `String.prototype.trim`: strip leading and trailing whitespace. -/
def trimL (l : List Char) : List Char :=
  ((l.dropWhile Char.isWhitespace).reverse.dropWhile Char.isWhitespace).reverse

/-- String-level wrapper for `trimL`. -/
def jsTrim (s : String) : String := String.mk (trimL s.data)

/-- The network requests the program can issue, in the order they are
initiated: the GitHub meta fetch (`fetchGitHubIPs`), the permission-group
catalog GET (`getPermissionGroupId`), and the token-creation POST. -/
inductive NetCall where
  | ipFetch (batch : String)
  | catalogLookup (permissionName : String)
  | tokenPost
  deriving DecidableEq, Repr

/-- The fatal errors of the resolution/build phase (spec taxonomy:
`InvalidFormatError`, `PermissionNotFoundError`). -/
inductive Err where
  | invalidFormat (descriptor : String)
  | permissionNotFound (permissionName : String)
  deriving DecidableEq, Repr

/-- The GitHub `/meta` response body: a mapping from batch name to a list
of CIDR strings. -/
abbrev MetaMap := List (String × List String)

/-- First-match association lookup (JS object property access on the data
objects appearing in the source; insertion order, first key wins). -/
def lookupAssoc (m : List (String × String)) (k : String) : Option String :=
  (m.find? (fun kv => kv.1 == k)).map (·.2)

/-- `fetchGitHubIPs` inner loop.  `outcomes i` is the result of the i-th
HTTP attempt on `https://api.github.com/meta`: `none` models a network
failure (timeout / error), `some meta` a successful response body.  On
success the result is `response.data[batch] || []`; on failure the source
waits a fixed 1000 ms (real time, not modelled) and retries while
`retries > 0`, else returns `[]`. -/
def fetchAux (batch : String) (outcomes : Nat → Option MetaMap) (i retries : Nat) :
    List String :=
  match outcomes i with
  | some meta => ((meta.find? (fun kv => kv.1 == batch)).map (·.2)).getD []
  | none =>
    match retries with
    | 0 => []
    | r + 1 => fetchAux batch outcomes (i + 1) r

/-- `fetchGitHubIPs(batch, retries = 3)`: at most 4 attempts in total. -/
def fetchGitHubIPs (batch : String) (outcomes : Nat → Option MetaMap) : List String :=
  fetchAux batch outcomes 0 3

/-- Separator choice of `createToken` (source line 82):
`permission.includes(":") ? ":" : "/"`. -/
def sepFor (p : String) : Char :=
  if hasChar ':' p.data then ':' else '/'

/-- The descriptor-splitting step of `createToken` (source lines 77-88):
reject a missing/empty descriptor, split on EVERY occurrence of the
separator chosen by `sepFor` (JS `split` is not a split-once), destructure
the first two segments, and reject when either is missing or empty (JS
falsiness of `undefined` and `""`).  Returns `(service, permissionName)`
on success; extra segments are silently dropped. -/
def splitSeg (p : String) : Option (String × String) :=
  if p = "" then none
  else
    match splitChars (sepFor p) p.data with
    | s :: n :: _ =>
      if s = [] ∨ n = [] then none else some (String.mk s, String.mk n)
    | _ => none

/-- Local permission map lookup, `permissionGroupIds[permissionName.trim()] || ''`:
a missing key yields the empty string (and a key mapped to `""` is
indistinguishable from a missing one). -/
def lookupLocal (localMap : List (String × String)) (key : String) : String :=
  (lookupAssoc localMap key).getD ""

/-- `getPermissionGroupId` (source lines 160-189): one authenticated GET
listing the account's permission groups, then `find` of the entry whose
`name` exactly equals the requested permission name (case-sensitive, no
partial match); its `id` on success, `PermissionNotFoundError` otherwise.
The catalog is the response body, a list of `(name, id)` pairs. -/
def getPermissionGroupId (catalog : List (String × String)) (permissionName : String) :
    Except Err String :=
  match catalog.find? (fun g => g.1 == permissionName) with
  | some g => .ok g.2
  | none => .error (.permissionNotFound permissionName)

/-- Account scoping of a resource (source lines 98-104):
`if (ACCOUNT_ID && !resource.startsWith(ACCOUNT_ID)) { if (!resource.includes(ACCOUNT_ID)) resource = ACCOUNT_ID + "." + resource }`. -/
def accountScope (accountId resource : String) : String :=
  if accountId ≠ "" ∧ startsWithL resource.data accountId.data = false then
    if isInfixL accountId.data resource.data = false then
      accountId ++ "." ++ resource
    else resource
  else resource

/-- `resource.split(".").pop()`: the last dot-separated segment. -/
def lastDotSegment (resource : String) : String :=
  String.mk ((splitChars '.' resource.data).getLastD [])

/-- One element of the `policies` array (source lines 106-118):
`effect: "allow"`, one permission group whose id is the last dot-segment
of the resource key with `meta {key: "service", value: service}`, and
`resources: {[resourceKey]: "*"}`. -/
structure Policy where
  effect : String
  groupId : String
  service : String
  resourceKey : String
  deriving DecidableEq, Repr

/-- Build the policy object from the service string and the fully
account-scoped resource key. -/
def mkPolicy (service resource : String) : Policy :=
  { effect := "allow", groupId := lastDotSegment resource,
    service := service, resourceKey := resource }

/-- Resolution of one permission descriptor: the body of the async mapper
in `createToken` (source lines 75-118).  Returns the network calls the
mapper initiates together with its outcome.  A malformed descriptor
throws before any call; a descriptor whose trimmed name has a non-empty
local-map entry resolves without a call; otherwise one catalog GET is
issued and the resource is `service + "." + groupId`.  Both branches then
apply `accountScope`. -/
def resolveOne (accountId : String) (localMap catalog : List (String × String))
    (p : String) : List NetCall × Except Err Policy :=
  match splitSeg p with
  | none => ([], .error (.invalidFormat p))
  | some (service, permissionName) =>
    if lookupLocal localMap (jsTrim permissionName) = "" then
      match getPermissionGroupId catalog (jsTrim permissionName) with
      | .ok groupId =>
        ([NetCall.catalogLookup (jsTrim permissionName)],
         .ok (mkPolicy service (accountScope accountId (service ++ "." ++ groupId))))
      | .error e => ([NetCall.catalogLookup (jsTrim permissionName)], .error e)
    else
      ([], .ok (mkPolicy service
          (accountScope accountId (lookupLocal localMap (jsTrim permissionName)))))

/-- `Promise.all(permissions.map(async ...))`: every mapper is started, in
input order, regardless of failures in the others, so each descriptor
contributes its network calls and its individual outcome. -/
def resolveAll (accountId : String) (localMap catalog : List (String × String)) :
    List String → List NetCall × List (Except Err Policy)
  | [] => ([], [])
  | p :: ps =>
    ((resolveOne accountId localMap catalog p).1 ++
       (resolveAll accountId localMap catalog ps).1,
     (resolveOne accountId localMap catalog p).2 ::
       (resolveAll accountId localMap catalog ps).2)

/-- The first synchronous `InvalidFormatError` among the mapper outcomes.
A malformed descriptor throws synchronously, before any network response
settles, so under `Promise.all` such a rejection always wins over a
`PermissionNotFoundError` (which settles only after its GET responds). -/
def firstInvalidFormat : List (Except Err Policy) → Option Err
  | [] => none
  | .error (.invalidFormat q) :: _ => some (.invalidFormat q)
  | .ok _ :: rs => firstInvalidFormat rs
  | .error (.permissionNotFound _) :: rs => firstInvalidFormat rs

/-- Sequence the remaining outcomes left to right: first error wins, else
the list of policies in input order. -/
def sequenceResults : List (Except Err Policy) → Except Err (List Policy)
  | [] => .ok []
  | .error e :: _ => .error e
  | .ok p :: rs =>
    match sequenceResults rs with
    | .ok ps => .ok (p :: ps)
    | .error e => .error e

/-- Combine the mapper outcomes the way `Promise.all` settles them:
a synchronous `InvalidFormatError` (if any) rejects first; otherwise the
first failed resolution rejects; otherwise all policies, in order. -/
def collectResults (rs : List (Except Err Policy)) : Except Err (List Policy) :=
  match firstInvalidFormat rs with
  | some e => .error e
  | none => sequenceResults rs

/-- `new Date().toISOString().split(".")[0] + "Z"`: the creation timestamp
truncated at the fractional-seconds dot. -/
def truncSeconds (nowIso : String) : String :=
  String.mk ((splitChars '.' nowIso.data).headD []) ++ "Z"

/-- The request body POSTed to the token endpoint (source lines 73-129).
`condition` is `none` exactly when the source leaves the field
`undefined` (absent from the serialized JSON, not an empty object);
likewise `expires_on`. -/
structure Payload where
  name : String
  policies : List Policy
  condition : Option (List String)
  expires_on : Option String
  not_before : String
  deriving DecidableEq, Repr

/-- `createToken` (source lines 62-158), up to and including the
token-creation POST.  Inputs: the account id and local permission map
(from the environment), the remote catalog and the meta-fetch outcomes
(the network), and the CLI arguments.  Returns the build outcome and the
ordered list of network calls initiated: the GitHub IP fetch first (only
when whitelisting is enabled, and BEFORE any descriptor is validated),
then the catalog GETs of the mappers, then — only when every descriptor
resolved — the POST. -/
def createToken (accountId : String) (localMap catalog : List (String × String))
    (outcomes : Nat → Option MetaMap) (name : String) (perms : List String)
    (expiration : Option String) (whitelistGitHubIPs : Bool) (githubIPBatch : String)
    (nowIso : String) : Except Err Payload × List NetCall :=
  match collectResults (resolveAll accountId localMap catalog perms).2 with
  | .error e =>
    (.error e,
     (if whitelistGitHubIPs then [NetCall.ipFetch githubIPBatch] else []) ++
       (resolveAll accountId localMap catalog perms).1)
  | .ok policies =>
    (.ok { name := name
           policies := policies
           condition :=
             if whitelistGitHubIPs then
               some (fetchGitHubIPs githubIPBatch outcomes)
             else none
           expires_on :=
             match expiration with
             | some e => if e = "" then none else some e
             | none => none
           not_before := truncSeconds nowIso },
     (if whitelistGitHubIPs then [NetCall.ipFetch githubIPBatch] else []) ++
       (resolveAll accountId localMap catalog perms).1 ++ [NetCall.tokenPost])

/-! ### Auxiliary lemmas about the string primitives -/

theorem data_append (s t : String) : (s ++ t).data = s.data ++ t.data := rfl

theorem data_eq_nil_iff (s : String) : s.data = [] ↔ s = "" := by
  constructor
  · intro h
    cases s with
    | mk d => cases h; rfl
  · intro h
    subst h
    rfl

theorem hasChar_append (c : Char) (xs ys : List Char) :
    hasChar c (xs ++ ys) = (hasChar c xs || hasChar c ys) := by
  induction xs with
  | nil => simp [hasChar]
  | cons x xs ih => simp [hasChar, ih, Bool.or_assoc]

theorem splitChars_ne_nil (sep : Char) (l : List Char) : splitChars sep l ≠ [] := by
  cases l with
  | nil => simp [splitChars]
  | cons c cs =>
    simp only [splitChars]
    split
    · simp
    · split <;> simp

theorem splitChars_of_hasChar_false (sep : Char) (l : List Char)
    (h : hasChar sep l = false) : splitChars sep l = [l] := by
  induction l with
  | nil => rfl
  | cons c cs ih =>
    simp only [hasChar, Bool.or_eq_false_iff] at h
    have hc : c ≠ sep := by simpa using h.1
    simp only [splitChars, if_neg hc, ih h.2]

theorem splitChars_append (sep : Char) (xs ys : List Char)
    (h : hasChar sep xs = false) :
    splitChars sep (xs ++ sep :: ys) = xs :: splitChars sep ys := by
  induction xs with
  | nil => simp [splitChars]
  | cons x xs ih =>
    simp only [hasChar, Bool.or_eq_false_iff] at h
    have hx : x ≠ sep := by simpa using h.1
    simp only [List.cons_append, splitChars, if_neg hx, List.append_eq, ih h.2]

theorem isInfixL_of_startsWithL (sub l : List Char) (h : startsWithL l sub = true) :
    isInfixL sub l = true := by
  cases l with
  | nil =>
    cases sub with
    | nil => rfl
    | cons y ys => simp [startsWithL] at h
  | cons x xs => simp [isInfixL, h]

theorem accountScope_of_not_infix (a r : String) (ha : a ≠ "")
    (h : isInfixL a.data r.data = false) :
    accountScope a r = a ++ "." ++ r := by
  have hsw : startsWithL r.data a.data = false := by
    cases hs : startsWithL r.data a.data
    · rfl
    · rw [isInfixL_of_startsWithL _ _ hs] at h
      cases h
  rw [accountScope, if_pos ⟨ha, hsw⟩, if_pos h]

/-! ### Auxiliary lemmas about the build pipeline -/

theorem resolveAll_mem (a : String) (lm cat : List (String × String))
    (perms : List String) (p : String) (hp : p ∈ perms) :
    (resolveOne a lm cat p).2 ∈ (resolveAll a lm cat perms).2 := by
  induction perms with
  | nil => cases hp
  | cons q qs ih =>
    rcases List.mem_cons.mp hp with h | h
    · subst h
      simp [resolveAll]
    · simp only [resolveAll]
      exact List.mem_cons_of_mem _ (ih h)

theorem firstInvalidFormat_isSome (rs : List (Except Err Policy)) (q : String)
    (h : Except.error (Err.invalidFormat q) ∈ rs) :
    ∃ w, firstInvalidFormat rs = some (Err.invalidFormat w) := by
  induction rs with
  | nil => cases h
  | cons r rs ih =>
    rcases List.mem_cons.mp h with heq | hmem
    · subst heq
      exact ⟨q, rfl⟩
    · match r with
      | .ok _ => simpa [firstInvalidFormat] using ih hmem
      | .error (.invalidFormat w) => exact ⟨w, rfl⟩
      | .error (.permissionNotFound _) => simpa [firstInvalidFormat] using ih hmem

theorem sequenceResults_error (rs : List (Except Err Policy)) (e : Err)
    (h : Except.error e ∈ rs) : ∃ w, sequenceResults rs = .error w := by
  induction rs with
  | nil => cases h
  | cons r rs ih =>
    rcases List.mem_cons.mp h with heq | hmem
    · subst heq
      exact ⟨e, rfl⟩
    · match r with
      | .ok pol =>
        obtain ⟨w, hw⟩ := ih hmem
        exact ⟨w, by simp [sequenceResults, hw]⟩
      | .error e2 => exact ⟨e2, rfl⟩

theorem collectResults_error (rs : List (Except Err Policy)) (e : Err)
    (h : Except.error e ∈ rs) : ∃ w, collectResults rs = .error w := by
  rw [collectResults]
  cases hf : firstInvalidFormat rs with
  | none => exact sequenceResults_error rs e h
  | some w => exact ⟨w, rfl⟩

theorem tokenPost_not_mem_resolveOne (a : String) (lm cat : List (String × String))
    (p : String) : NetCall.tokenPost ∉ (resolveOne a lm cat p).1 := by
  cases hsp : splitSeg p with
  | none => simp [resolveOne, hsp]
  | some sn =>
    obtain ⟨s, n⟩ := sn
    by_cases hl : lookupLocal lm (jsTrim n) = ""
    · cases hg : getPermissionGroupId cat (jsTrim n) <;>
        simp [resolveOne, hsp, hl, hg]
    · simp [resolveOne, hsp, hl]

theorem tokenPost_not_mem_resolveAll (a : String) (lm cat : List (String × String))
    (perms : List String) : NetCall.tokenPost ∉ (resolveAll a lm cat perms).1 := by
  induction perms with
  | nil => simp [resolveAll]
  | cons p ps ih =>
    simp only [resolveAll, List.mem_append]
    rintro (h | h)
    · exact tokenPost_not_mem_resolveOne a lm cat p h
    · exact ih h

theorem fetchAux_all_none (batch : String) (outcomes : Nat → Option MetaMap) :
    ∀ retries i, (∀ j, i ≤ j → j ≤ i + retries → outcomes j = none) →
      fetchAux batch outcomes i retries = [] := by
  intro retries
  induction retries with
  | zero =>
    intro i h
    rw [fetchAux, h i le_rfl (by omega)]
  | succ r ih =>
    intro i h
    rw [fetchAux, h i le_rfl (by omega)]
    exact ih (i + 1) fun j h1 h2 => h j (by omega) (by omega)

theorem fetchAux_congr (batch : String) (o1 o2 : Nat → Option MetaMap) :
    ∀ retries i, (∀ j, i ≤ j → j ≤ i + retries → o1 j = o2 j) →
      fetchAux batch o1 i retries = fetchAux batch o2 i retries := by
  intro retries
  induction retries with
  | zero =>
    intro i h
    rw [fetchAux, fetchAux, h i le_rfl (by omega)]
  | succ r ih =>
    intro i h
    rw [fetchAux, fetchAux, h i le_rfl (by omega)]
    cases h2 : o2 i with
    | some m => rfl
    | none => exact ih (i + 1) fun j h1 h2 => h j (by omega) (by omega)

theorem mem_resolveAll_calls (a : String) (lm cat : List (String × String))
    (perms : List String) (p : String) (c : NetCall) (hp : p ∈ perms)
    (hc : c ∈ (resolveOne a lm cat p).1) : c ∈ (resolveAll a lm cat perms).1 := by
  induction perms with
  | nil => cases hp
  | cons q qs ih =>
    rcases List.mem_cons.mp hp with heq | hmem
    · subst heq
      simp only [resolveAll, List.mem_append]
      exact Or.inl hc
    · simp only [resolveAll, List.mem_append]
      exact Or.inr (ih hmem)

theorem resolveAll_calls_flatten (a : String) (lm cat : List (String × String))
    (perms : List String) :
    (resolveAll a lm cat perms).1 =
      (perms.map fun q => (resolveOne a lm cat q).1).flatten := by
  induction perms with
  | nil => rfl
  | cons q qs ih => simp [resolveAll, ih]

/-! ### Claim theorems -/

/-- **C9**: for a well-formed descriptor assembled from a service and a
permission name (both non-empty and free of either separator character),
the spellings `service:name` and `service/name` split into the same
`(service, name)` pair — the separator choice is transparent. -/
theorem separator_transparent (s n : String) (hs : s ≠ "") (hn : n ≠ "")
    (hsc : hasChar ':' s.data = false) (hnc : hasChar ':' n.data = false)
    (hss : hasChar '/' s.data = false) (hns : hasChar '/' n.data = false) :
    splitSeg (s ++ ":" ++ n) = some (s, n) ∧
    splitSeg (s ++ "/" ++ n) = some (s, n) := by
  have hsd : s.data ≠ [] := fun h => hs ((data_eq_nil_iff s).mp h)
  have hnd : n.data ≠ [] := fun h => hn ((data_eq_nil_iff n).mp h)
  have hdc : (s ++ ":" ++ n).data = s.data ++ ':' :: n.data := by
    rw [data_append, data_append, List.append_assoc]
    rfl
  have hds : (s ++ "/" ++ n).data = s.data ++ '/' :: n.data := by
    rw [data_append, data_append, List.append_assoc]
    rfl
  constructor
  · have hne : (s ++ ":" ++ n) ≠ "" := by
      intro h
      have h2 : (s ++ ":" ++ n).data = [] := by rw [h]
      rw [hdc] at h2
      simp at h2
    have hsep : sepFor (s ++ ":" ++ n) = ':' := by
      rw [sepFor, hdc, hasChar_append]
      simp [hasChar]
    have hsplit : splitChars ':' (s ++ ":" ++ n).data = [s.data, n.data] := by
      rw [hdc, splitChars_append _ _ _ hsc, splitChars_of_hasChar_false _ _ hnc]
    rw [splitSeg, if_neg hne, hsep, hsplit]
    simp [hsd, hnd]
  · have hne : (s ++ "/" ++ n) ≠ "" := by
      intro h
      have h2 : (s ++ "/" ++ n).data = [] := by rw [h]
      rw [hds] at h2
      simp at h2
    have hsep : sepFor (s ++ "/" ++ n) = '/' := by
      rw [sepFor, hds, hasChar_append]
      simp [hasChar, hsc, hnc]
    have hsplit : splitChars '/' (s ++ "/" ++ n).data = [s.data, n.data] := by
      rw [hds, splitChars_append _ _ _ hss, splitChars_of_hasChar_false _ _ hns]
    rw [splitSeg, if_neg hne, hsep, hsplit]
    simp [hsd, hnd]

/-- **C9** witness at `("zone", "Zone Read")`. -/
theorem separator_transparent_witness :
    splitSeg "zone:Zone Read" = some ("zone", "Zone Read") ∧
    splitSeg "zone/Zone Read" = some ("zone", "Zone Read") :=
  separator_transparent "zone" "Zone Read" (by decide) (by decide) rfl rfl rfl rfl

/-- **C4** counterexample: JS `split` splits on every occurrence of the
separator and the destructuring keeps only the first two segments, so
`"a:b:c"` resolves to service `"a"` and permission name `"b"`, not
`"b:c"` as the claim states. -/
theorem split_triple_counterexample :
    splitSeg "a:b:c" = some ("a", "b") ∧
    splitSeg "a:b:c" ≠ some ("a", "b:c") := by
  constructor
  · rfl
  · decide

/-- **C4** (amended): the resolver splits on every occurrence of `:` when
the descriptor contains one, else on `/`, keeps the first two segments as
service and permission name (extra segments are dropped, so
`s:n:r` yields `(s, n)`), and fails unless both kept segments are
non-empty before trimming: no separator at all, an empty service, or an
empty name yield `InvalidFormatError`. -/
theorem split_semantics (s n r : String) (hs : s ≠ "") (hn : n ≠ "")
    (hsc : hasChar ':' s.data = false) (hnc : hasChar ':' n.data = false) :
    splitSeg (s ++ ":" ++ n ++ ":" ++ r) = some (s, n) ∧
    (∀ p : String, hasChar ':' p.data = false → hasChar '/' p.data = false →
      splitSeg p = none) ∧
    (∀ t : String, splitSeg (":" ++ t) = none) ∧
    splitSeg (s ++ ":") = none := by
  have hsd : s.data ≠ [] := fun h => hs ((data_eq_nil_iff s).mp h)
  have hnd : n.data ≠ [] := fun h => hn ((data_eq_nil_iff n).mp h)
  refine ⟨?_, ?_, ?_, ?_⟩
  · have hd : (s ++ ":" ++ n ++ ":" ++ r).data =
        s.data ++ ':' :: (n.data ++ ':' :: r.data) := by
      rw [data_append, data_append, data_append, data_append]
      simp [List.append_assoc]
    have hne : (s ++ ":" ++ n ++ ":" ++ r) ≠ "" := by
      intro h
      have h2 : (s ++ ":" ++ n ++ ":" ++ r).data = [] := by rw [h]
      rw [hd] at h2
      simp at h2
    have hsep : sepFor (s ++ ":" ++ n ++ ":" ++ r) = ':' := by
      rw [sepFor, hd, hasChar_append]
      simp [hasChar]
    have hsplit : splitChars ':' (s ++ ":" ++ n ++ ":" ++ r).data =
        s.data :: n.data :: splitChars ':' r.data := by
      rw [hd, splitChars_append _ _ _ hsc, splitChars_append _ _ _ hnc]
    rw [splitSeg, if_neg hne, hsep, hsplit]
    simp [hsd, hnd]
  · intro p h1 h2
    by_cases hp : p = ""
    · simp [splitSeg, hp]
    · have hsep : sepFor p = '/' := by
        simp [sepFor, h1]
      rw [splitSeg, if_neg hp, hsep, splitChars_of_hasChar_false _ _ h2]
  · intro t
    have hd : (":" ++ t).data = ':' :: t.data := by
      rw [data_append]
      rfl
    have hne : (":" ++ t) ≠ "" := by
      intro h
      have h2 : (":" ++ t).data = [] := by rw [h]
      rw [hd] at h2
      cases h2
    have hsep : sepFor (":" ++ t) = ':' := by
      rw [sepFor, hd]
      simp [hasChar]
    have hhead : splitChars ':' (':' :: t.data) = [] :: splitChars ':' t.data :=
      splitChars_append ':' [] t.data rfl
    obtain ⟨n2, rest, hnr⟩ : ∃ n2 rest, splitChars ':' t.data = n2 :: rest := by
      cases hsc2 : splitChars ':' t.data with
      | nil => exact absurd hsc2 (splitChars_ne_nil ':' t.data)
      | cons a b => exact ⟨a, b, rfl⟩
    rw [splitSeg, if_neg hne, hsep, hd, hhead, hnr]
    simp
  · have hd : (s ++ ":").data = s.data ++ ':' :: [] := by
      rw [data_append]

    have hne : (s ++ ":") ≠ "" := by
      intro h
      have h2 : (s ++ ":").data = [] := by rw [h]
      rw [hd] at h2
      simp at h2
    have hsep : sepFor (s ++ ":") = ':' := by
      rw [sepFor, hd, hasChar_append]
      simp [hasChar]
    have hsplit : splitChars ':' (s ++ ":").data = [s.data, []] := by
      rw [hd, splitChars_append _ _ _ hsc]
      rfl
    rw [splitSeg, if_neg hne, hsep, hsplit]
    simp

/-- **C4** (amended) witness at `("a", "b", "c")`:
`"a:b:c"` yields `("a", "b")`, `"nosep"` fails, `":x"` fails, `"a:"` fails. -/
theorem split_semantics_witness :
    splitSeg "a:b:c" = some ("a", "b") ∧
    splitSeg "nosep" = none ∧
    splitSeg ":x" = none ∧
    splitSeg "a:" = none := by
  obtain ⟨h1, h2, h3, h4⟩ := split_semantics "a" "b" "c" (by decide) (by decide) rfl rfl
  exact ⟨h1, h2 "nosep" rfl rfl, h3 "x", h4⟩

/-- **C1** counterexample: with whitelisting enabled (the default) and the
single malformed descriptor `"nosep"`, the build fails with
`InvalidFormatError` yet the GitHub IP-range fetch has already been
issued — the call list is non-empty, contradicting "issues no network
call". -/
theorem malformed_still_fetches_ips :
    (createToken "ACCT1" [] [] (fun _ => none) "Generated Token" ["nosep"] none true
        "actions" "2025-01-01T00:00:00.000Z").1 = .error (.invalidFormat "nosep") ∧
    (createToken "ACCT1" [] [] (fun _ => none) "Generated Token" ["nosep"] none true
        "actions" "2025-01-01T00:00:00.000Z").2 = [NetCall.ipFetch "actions"] ∧
    [NetCall.ipFetch "actions"] ≠ ([] : List NetCall) :=
  ⟨rfl, rfl, by decide⟩

/-- **C1** (amended): when the input list contains a malformed descriptor
the build fails with `InvalidFormatError`, the token-creation POST is
never issued, and the malformed descriptor itself contributes no network
call; but the GitHub IP-range fetch is still performed whenever
whitelisting is enabled, because `createToken` fetches the IP list before
validating any descriptor. -/
theorem malformed_build_fails (accountId : String)
    (localMap catalog : List (String × String)) (outcomes : Nat → Option MetaMap)
    (name : String) (perms : List String) (expiration : Option String)
    (whitelist : Bool) (batch nowIso : String) (p : String)
    (hp : p ∈ perms) (hbad : splitSeg p = none) :
    (∃ q, (createToken accountId localMap catalog outcomes name perms expiration
        whitelist batch nowIso).1 = .error (.invalidFormat q)) ∧
    NetCall.tokenPost ∉ (createToken accountId localMap catalog outcomes name perms
        expiration whitelist batch nowIso).2 ∧
    (resolveOne accountId localMap catalog p).1 = [] ∧
    (whitelist = true → NetCall.ipFetch batch ∈ (createToken accountId localMap
        catalog outcomes name perms expiration whitelist batch nowIso).2) := by
  have hres : (resolveOne accountId localMap catalog p).2 =
      .error (.invalidFormat p) := by
    simp [resolveOne, hbad]
  have hmem := resolveAll_mem accountId localMap catalog perms p hp
  rw [hres] at hmem
  obtain ⟨w, hw⟩ := firstInvalidFormat_isSome _ p hmem
  have hcol : collectResults (resolveAll accountId localMap catalog perms).2 =
      .error (.invalidFormat w) := by
    rw [collectResults, hw]
  refine ⟨⟨w, ?_⟩, ?_, ?_, ?_⟩
  · rw [createToken.eq_def, hcol]
  · rw [createToken.eq_def, hcol]
    intro hmem2
    simp only [List.mem_append] at hmem2
    rcases hmem2 with h | h
    · cases whitelist <;> simp at h
    · exact tokenPost_not_mem_resolveAll accountId localMap catalog perms h
  · simp [resolveOne, hbad]
  · intro hwl
    rw [createToken.eq_def, hcol, hwl]
    simp

/-- **C1** (amended) witness at `perms = ["nosep"]`, whitelisting on. -/
theorem malformed_build_fails_witness :
    (∃ q, (createToken "ACCT1" [] [] (fun _ => none) "Generated Token" ["nosep"] none
        true "actions" "2025-01-01T00:00:00.000Z").1 = .error (.invalidFormat q)) ∧
    NetCall.tokenPost ∉ (createToken "ACCT1" [] [] (fun _ => none) "Generated Token"
        ["nosep"] none true "actions" "2025-01-01T00:00:00.000Z").2 ∧
    (resolveOne "ACCT1" [] [] "nosep").1 = [] ∧
    (true = true → NetCall.ipFetch "actions" ∈ (createToken "ACCT1" [] []
        (fun _ => none) "Generated Token" ["nosep"] none true "actions"
        "2025-01-01T00:00:00.000Z").2) :=
  malformed_build_fails "ACCT1" [] [] (fun _ => none) "Generated Token" ["nosep"]
    none true "actions" "2025-01-01T00:00:00.000Z" "nosep" (by simp) rfl

/-- **C3** counterexample: with the input `["nosep", "zone:Zone Read"]`
(whitelisting off, empty local map), resolution of the first descriptor
fails with `InvalidFormatError`, yet the catalog GET for the second
descriptor is still initiated — a resolution failure does not stop
processing of the remaining descriptors, because `Promise.all` starts
every mapper eagerly. -/
theorem failure_does_not_stop_rest :
    (createToken "ACCT1" [] [("Zone Read", "zr1")] (fun _ => none) "Generated Token"
        ["nosep", "zone:Zone Read"] none false "actions"
        "2025-01-01T00:00:00.000Z").1 = .error (.invalidFormat "nosep") ∧
    (createToken "ACCT1" [] [("Zone Read", "zr1")] (fun _ => none) "Generated Token"
        ["nosep", "zone:Zone Read"] none false "actions"
        "2025-01-01T00:00:00.000Z").2 = [NetCall.catalogLookup "Zone Read"] :=
  ⟨rfl, rfl⟩

/-- **C3** (amended): within one invocation, permission resolution
initiates the network lookups of every descriptor in input order — the
build's call list restricted to resolution is the input-order
concatenation of each descriptor's calls — and a resolution failure on
one descriptor does not stop the catalog lookups of the remaining
descriptors: every call initiated by any descriptor's mapper appears in
the build's call list, whatever the other descriptors do.  (Whether two
in-flight calls overlap in real time is a temporal property outside this
embedding.) -/
theorem resolution_not_short_circuited (accountId : String)
    (localMap catalog : List (String × String)) (outcomes : Nat → Option MetaMap)
    (name : String) (perms : List String) (expiration : Option String)
    (whitelist : Bool) (batch nowIso : String) (p : String) (c : NetCall)
    (hp : p ∈ perms) (hc : c ∈ (resolveOne accountId localMap catalog p).1) :
    c ∈ (createToken accountId localMap catalog outcomes name perms expiration
        whitelist batch nowIso).2 ∧
    (resolveAll accountId localMap catalog perms).1 =
      (perms.map fun q => (resolveOne accountId localMap catalog q).1).flatten := by
  refine ⟨?_, resolveAll_calls_flatten accountId localMap catalog perms⟩
  have hmem := mem_resolveAll_calls accountId localMap catalog perms p c hp hc
  rw [createToken.eq_def]
  cases hcol : collectResults (resolveAll accountId localMap catalog perms).2 with
  | error e =>
    simp only [List.mem_append]
    exact Or.inr hmem
  | ok pols =>
    simp only [List.mem_append]
    exact Or.inl (Or.inr hmem)

/-- **C3** (amended) witness: in the `["nosep", "zone:Zone Read"]` build —
which fails on its first descriptor — the second descriptor's catalog GET
is nevertheless in the build's call list. -/
theorem resolution_not_short_circuited_witness :
    NetCall.catalogLookup "Zone Read" ∈
      (createToken "ACCT1" [] [("Zone Read", "zr1")] (fun _ => none) "Generated Token"
        ["nosep", "zone:Zone Read"] none false "actions"
        "2025-01-01T00:00:00.000Z").2 ∧
    (resolveAll "ACCT1" [] [("Zone Read", "zr1")] ["nosep", "zone:Zone Read"]).1 =
      ((["nosep", "zone:Zone Read"]).map fun q =>
        (resolveOne "ACCT1" [] [("Zone Read", "zr1")] q).1).flatten :=
  resolution_not_short_circuited "ACCT1" [] [("Zone Read", "zr1")] (fun _ => none)
    "Generated Token" ["nosep", "zone:Zone Read"] none false "actions"
    "2025-01-01T00:00:00.000Z" "zone:Zone Read" (NetCall.catalogLookup "Zone Read")
    (by simp) (by decide)

/-- **C2** counterexample: with local mapping
`{"Account Settings Read" ↦ "abc123"}` and account id `"ACCT1"`, resolving
`"com.cloudflare.api.account:Account Settings Read"` produces resource key
`"ACCT1.abc123"` — the service string is never joined when the id comes
from the local mapping — not `"com.cloudflare.api.account.ACCT1.abc123"`
as the claim states. -/
theorem local_resolution_drops_service :
    resolveOne "ACCT1" [("Account Settings Read", "abc123")] []
        "com.cloudflare.api.account:Account Settings Read" =
      ([], .ok { effect := "allow", groupId := "abc123",
                 service := "com.cloudflare.api.account",
                 resourceKey := "ACCT1.abc123" }) ∧
    ("ACCT1.abc123" : String) ≠ "com.cloudflare.api.account.ACCT1.abc123" :=
  ⟨rfl, by decide⟩

/-- **C2** (amended): when the trimmed permission name is found in the
local mapping with a non-empty id `v`, the resolved policy is built — with
no network call — from the account-scoped id alone: the resource key is
`v` prefixed with `accountId.` exactly when `v` does not already contain
the account id as a substring (the service string is NOT joined in this
branch; only the remote-lookup branch joins it), and the permission-group
id placed in the policy is the last dot-separated segment of the resource
key. -/
theorem local_resolution_resource_key (accountId : String)
    (localMap catalog : List (String × String)) (p s n v : String)
    (hsp : splitSeg p = some (s, n)) (hv : lookupLocal localMap (jsTrim n) = v)
    (hne : v ≠ "") :
    resolveOne accountId localMap catalog p =
      ([], .ok (mkPolicy s (accountScope accountId v))) ∧
    (accountId ≠ "" → isInfixL accountId.data v.data = false →
      accountScope accountId v = accountId ++ "." ++ v) ∧
    (mkPolicy s (accountScope accountId v)).groupId =
      lastDotSegment (mkPolicy s (accountScope accountId v)).resourceKey := by
  refine ⟨?_, ?_, rfl⟩
  · simp only [resolveOne, hsp, hv]
    rw [if_neg hne]
  · intro ha hi
    exact accountScope_of_not_infix accountId v ha hi

/-- **C2** (amended) witness at the claim's own example. -/
theorem local_resolution_resource_key_witness :
    resolveOne "ACCT1" [("Account Settings Read", "abc123")] []
        "com.cloudflare.api.account:Account Settings Read" =
      ([], .ok (mkPolicy "com.cloudflare.api.account"
          (accountScope "ACCT1" "abc123"))) ∧
    ("ACCT1" ≠ "" → isInfixL "ACCT1".data "abc123".data = false →
      accountScope "ACCT1" "abc123" = "ACCT1" ++ "." ++ "abc123") ∧
    (mkPolicy "com.cloudflare.api.account" (accountScope "ACCT1" "abc123")).groupId =
      lastDotSegment (mkPolicy "com.cloudflare.api.account"
          (accountScope "ACCT1" "abc123")).resourceKey :=
  local_resolution_resource_key "ACCT1" [("Account Settings Read", "abc123")] []
    "com.cloudflare.api.account:Account Settings Read" "com.cloudflare.api.account"
    "Account Settings Read" "abc123" rfl rfl (by decide)

/-- **C5**: a descriptor whose trimmed name has a non-empty local entry
resolves without any remote call; one without a usable local entry issues
exactly one catalog lookup, which succeeds only on an exact
(case-sensitive, whole-name) entry and fails with
`PermissionNotFoundError` when no exact match exists; and any resolution
failure makes the whole build fail (no partial success). -/
theorem remote_fallback_spec (accountId : String)
    (localMap catalog : List (String × String)) (p s n : String)
    (hsp : splitSeg p = some (s, n)) :
    (lookupLocal localMap (jsTrim n) ≠ "" →
      (resolveOne accountId localMap catalog p).1 = []) ∧
    (lookupLocal localMap (jsTrim n) = "" →
      (resolveOne accountId localMap catalog p).1 =
        [NetCall.catalogLookup (jsTrim n)]) ∧
    (lookupLocal localMap (jsTrim n) = "" →
      catalog.find? (fun g => g.1 == jsTrim n) = none →
      (resolveOne accountId localMap catalog p).2 =
        .error (.permissionNotFound (jsTrim n))) ∧
    (∀ g, lookupLocal localMap (jsTrim n) = "" →
      catalog.find? (fun g2 => g2.1 == jsTrim n) = some g →
      (resolveOne accountId localMap catalog p).2 =
        .ok (mkPolicy s (accountScope accountId (s ++ "." ++ g.2)))) ∧
    (∀ (outcomes : Nat → Option MetaMap) (name : String) (perms : List String)
        (expiration : Option String) (whitelist : Bool) (batch nowIso : String)
        (e : Err), p ∈ perms →
      (resolveOne accountId localMap catalog p).2 = .error e →
      ∃ w, (createToken accountId localMap catalog outcomes name perms expiration
          whitelist batch nowIso).1 = .error w) := by
  refine ⟨?_, ?_, ?_, ?_, ?_⟩
  · intro hl
    simp only [resolveOne, hsp]
    rw [if_neg hl]
  · intro hl
    cases hg : getPermissionGroupId catalog (jsTrim n) <;>
      simp [resolveOne, hsp, hl, hg]
  · intro hl hf
    have hg : getPermissionGroupId catalog (jsTrim n) =
        .error (.permissionNotFound (jsTrim n)) := by
      rw [getPermissionGroupId, hf]
    simp [resolveOne, hsp, hl, hg]
  · intro g hl hf
    have hg : getPermissionGroupId catalog (jsTrim n) = .ok g.2 := by
      rw [getPermissionGroupId, hf]
    simp [resolveOne, hsp, hl, hg]
  · intro outcomes name perms expiration whitelist batch nowIso e hpmem herr
    have hmem := resolveAll_mem accountId localMap catalog perms p hpmem
    rw [herr] at hmem
    obtain ⟨w, hw⟩ := collectResults_error _ e hmem
    exact ⟨w, by rw [createToken.eq_def, hw]⟩

/-- **C5** witness at the spec's example: `"zone:Zone Write"` against a
catalog holding only `("Zone Read", "zr1")` issues exactly one catalog
lookup and fails with `PermissionNotFoundError`. -/
theorem remote_fallback_spec_witness :
    (resolveOne "ACCT1" [] [("Zone Read", "zr1")] "zone:Zone Write").1 =
      [NetCall.catalogLookup "Zone Write"] ∧
    (resolveOne "ACCT1" [] [("Zone Read", "zr1")] "zone:Zone Write").2 =
      .error (.permissionNotFound "Zone Write") := by
  obtain ⟨c1, c2, c3, c4, c5⟩ := remote_fallback_spec "ACCT1" [] [("Zone Read", "zr1")]
    "zone:Zone Write" "zone" "Zone Write" rfl
  exact ⟨c2 rfl, c3 rfl rfl⟩

/-- **C10**: a local-mapping entry whose value is the empty string is
treated exactly like an absent entry — resolution behaves identically to
resolution with no local mapping at all, falling back to the remote
catalog lookup instead of using `""` as the resource id. -/
theorem empty_local_entry_falls_back (accountId : String)
    (localMap catalog : List (String × String)) (p s n : String)
    (hsp : splitSeg p = some (s, n))
    (hmap : localMap.find? (fun kv => kv.1 == jsTrim n) = some (jsTrim n, "")) :
    resolveOne accountId localMap catalog p = resolveOne accountId [] catalog p ∧
    (resolveOne accountId localMap catalog p).1 =
      [NetCall.catalogLookup (jsTrim n)] := by
  have hl : lookupLocal localMap (jsTrim n) = "" := by
    rw [lookupLocal, lookupAssoc, hmap]
    rfl
  have hl2 : lookupLocal ([] : List (String × String)) (jsTrim n) = "" := rfl
  constructor
  · simp only [resolveOne, hsp, hl, hl2]
  · cases hg : getPermissionGroupId catalog (jsTrim n) <;>
      simp [resolveOne, hsp, hl, hg]

/-- **C10** witness: mapping `"Zone Read"` to `""` resolves exactly like
having no mapping, via the remote catalog. -/
theorem empty_local_entry_falls_back_witness :
    resolveOne "ACCT1" [("Zone Read", "")] [("Zone Read", "zr1")] "zone:Zone Read" =
      resolveOne "ACCT1" [] [("Zone Read", "zr1")] "zone:Zone Read" ∧
    (resolveOne "ACCT1" [("Zone Read", "")] [("Zone Read", "zr1")]
        "zone:Zone Read").1 = [NetCall.catalogLookup "Zone Read"] :=
  empty_local_entry_falls_back "ACCT1" [("Zone Read", "")] [("Zone Read", "zr1")]
    "zone:Zone Read" "zone" "Zone Read" rfl rfl

/-- **C6**: in every successfully assembled request the IP condition is
present iff whitelisting is enabled: `condition` is `none` (the field is
absent, not an empty object) when whitelisting is off, and is exactly the
CIDR list returned by the IP fetch when it is on. -/
theorem condition_iff_whitelist (accountId : String)
    (localMap catalog : List (String × String)) (outcomes : Nat → Option MetaMap)
    (name : String) (perms : List String) (expiration : Option String)
    (whitelist : Bool) (batch nowIso : String) (pay : Payload)
    (h : (createToken accountId localMap catalog outcomes name perms expiration
        whitelist batch nowIso).1 = .ok pay) :
    pay.condition =
      if whitelist then some (fetchGitHubIPs batch outcomes) else none := by
  rw [createToken.eq_def] at h
  cases hcol : collectResults (resolveAll accountId localMap catalog perms).2 with
  | error e =>
    rw [hcol] at h
    simp at h
  | ok pols =>
    rw [hcol] at h
    simp only [Except.ok.injEq] at h
    subst h
    rfl

/-- **C6** witness: with whitelisting on and an IP fetch returning
`["1.2.3.0/24"]`, the assembled condition is `some ["1.2.3.0/24"]`. -/
theorem condition_iff_whitelist_witness :
    ({ name := "Generated Token",
       policies := [{ effect := "allow", groupId := "id1", service := "a",
                      resourceKey := "ACCT1.id1" }],
       condition := some ["1.2.3.0/24"],
       expires_on := some "2025-12-31T23:59:59Z",
       not_before := "2025-01-01T00:00:00Z" } : Payload).condition =
      if true then
        some (fetchGitHubIPs "actions" (fun _ => some [("actions", ["1.2.3.0/24"])]))
      else none :=
  condition_iff_whitelist "ACCT1" [("B", "id1")] []
    (fun _ => some [("actions", ["1.2.3.0/24"])]) "Generated Token" ["a:B"]
    (some "2025-12-31T23:59:59Z") true "actions" "2025-01-01T00:00:00.123Z" _ rfl

/-- **C7**: the IP allow-list fetch never aborts the build: its result
depends only on the four bounded attempts (the initial call plus three
retries), it returns `[]` when all four fail, and it returns `[]` when
the registry response lacks the requested batch key. -/
theorem ip_fetch_degrades (batch : String) (o1 o2 : Nat → Option MetaMap)
    (meta : MetaMap) :
    ((∀ j, j ≤ 3 → o1 j = none) → fetchGitHubIPs batch o1 = []) ∧
    ((∀ j, j ≤ 3 → o1 j = o2 j) →
      fetchGitHubIPs batch o1 = fetchGitHubIPs batch o2) ∧
    (o1 0 = some meta → meta.find? (fun kv => kv.1 == batch) = none →
      fetchGitHubIPs batch o1 = []) := by
  refine ⟨?_, ?_, ?_⟩
  · intro h
    exact fetchAux_all_none batch o1 3 0 fun j h1 h2 => h j (by omega)
  · intro h
    exact fetchAux_congr batch o1 o2 3 0 fun j h1 h2 => h j (by omega)
  · intro h0 hf
    rw [fetchGitHubIPs, fetchAux, h0]
    simp [hf]

/-- **C7** witness: all four attempts failing yields `[]`, and a response
without the `"actions"` key yields `[]`. -/
theorem ip_fetch_degrades_witness :
    fetchGitHubIPs "actions" (fun _ => none) = [] ∧
    fetchGitHubIPs "actions" (fun _ => some [("pages", ["x"])]) = [] :=
  ⟨(ip_fetch_degrades "actions" (fun _ => none) (fun _ => none) []).1
      (fun _ _ => rfl),
   (ip_fetch_degrades "actions" (fun _ => some [("pages", ["x"])]) (fun _ => none)
      [("pages", ["x"])]).2.2 rfl rfl⟩

/-- **C8**: in every successfully assembled request `not_before` is the
current ISO timestamp truncated at the fractional-seconds dot (with the
`Z` suffix re-appended), and `expires_on`, when present, is exactly the
literal expiration string that was supplied. -/
theorem timestamps_spec (accountId : String)
    (localMap catalog : List (String × String)) (outcomes : Nat → Option MetaMap)
    (name : String) (perms : List String) (expiration : Option String)
    (whitelist : Bool) (batch nowIso : String) (pay : Payload)
    (h : (createToken accountId localMap catalog outcomes name perms expiration
        whitelist batch nowIso).1 = .ok pay) :
    pay.not_before = truncSeconds nowIso ∧
    (∀ e, pay.expires_on = some e → expiration = some e) ∧
    (∀ pre frac : String, hasChar '.' pre.data = false →
      truncSeconds (pre ++ "." ++ frac) = pre ++ "Z") := by
  rw [createToken.eq_def] at h
  cases hcol : collectResults (resolveAll accountId localMap catalog perms).2 with
  | error e =>
    rw [hcol] at h
    simp at h
  | ok pols =>
    rw [hcol] at h
    simp only [Except.ok.injEq] at h
    subst h
    refine ⟨rfl, ?_, ?_⟩
    · intro e he
      cases expiration with
      | none => simp at he
      | some e2 =>
        by_cases h2 : e2 = ""
        · simp [h2] at he
        · simp only [h2, if_false] at he
          rw [he]
    · intro pre frac hpre
      have hd : (pre ++ "." ++ frac).data = pre.data ++ '.' :: frac.data := by
        rw [data_append, data_append, List.append_assoc]
        rfl
      rw [truncSeconds, hd, splitChars_append _ _ _ hpre]
      rfl

/-- **C8** witness: a successful build with `nowIso` carrying millisecond
precision truncates `not_before` to whole seconds, and the truncation
drops everything from the first dot. -/
theorem timestamps_spec_witness :
    ("2025-01-01T00:00:00Z" : String) = truncSeconds "2025-01-01T00:00:00.123Z" ∧
    truncSeconds ("2025-01-01T00:00:00" ++ "." ++ "123Z") =
      "2025-01-01T00:00:00" ++ "Z" :=
  ⟨(timestamps_spec "ACCT1" [("B", "id1")] []
      (fun _ => some [("actions", ["1.2.3.0/24"])]) "Generated Token" ["a:B"]
      (some "2025-12-31T23:59:59Z") true "actions" "2025-01-01T00:00:00.123Z"
      _ rfl).1,
   (timestamps_spec "ACCT1" [("B", "id1")] []
      (fun _ => some [("actions", ["1.2.3.0/24"])]) "Generated Token" ["a:B"]
      (some "2025-12-31T23:59:59Z") true "actions" "2025-01-01T00:00:00.123Z"
      _ rfl).2.2 "2025-01-01T00:00:00" "123Z" rfl⟩

end CfToken
